import Mathlib

/-!
Shallow embedding of the mrgnlabs/mary state-synchronization cache and
liquidation scheduling loop, together with theorems settling the frozen
claims about it.

Modelling conventions:
* a 32-byte `Pubkey` is an opaque comparable key, modelled as `Nat`;
  `Pubkey::default()` is modelled as `0`;
* byte buffers (`Vec<u8>` account data) are `List Nat`;
* a `HashMap` is an association list with replace-on-insert semantics;
* an `RwLock` is modelled by a `poisoned : Bool` flag carried in each
  cache's state: acquiring a poisoned lock yields the mapped error;
* fallible Rust functions return `Outcome`, which distinguishes a typed
  error (`Result::Err`) from a Rust panic;
* `I80F48` fixed-point numbers are modelled by their integer numerator
  `n : Int`, the represented value being `n / 2 ^ 48`.
-/

namespace Mary

/-- Opaque 32-byte account address (`solana_sdk::pubkey::Pubkey`). -/
abbrev Addr := Nat

/-- Typed errors surfaced by the embedded code (`anyhow::Error` variants
collapsed to their meaning). -/
inductive Err where
  | lockPoisoned
  | notFound
  | decodeFailed
  | fetchFailed
  | invalidLength
  | invalidDiscriminator
  | unsupportedOracleType
deriving DecidableEq

/-- Result of running a piece of Rust code: a value, a typed error, or a
panic (process abort). -/
inductive Outcome (α : Type) where
  | ok (value : α)
  | err (error : Err)
  | panicked
deriving DecidableEq

/-- True when the outcome is a successfully returned value. -/
def Outcome.isOk {α : Type} : Outcome α → Bool
  | .ok _ => true
  | _ => false

/-- HashMap insert: replaces any previous binding of the key. -/
def mapInsert {β : Type} (m : List (Addr × β)) (k : Addr) (v : β) :
    List (Addr × β) :=
  (k, v) :: m.filter (fun p => p.1 != k)

/-- HashMap lookup. -/
def mapGet {β : Type} (m : List (Addr × β)) (k : Addr) : Option β :=
  List.lookup k m

theorem mapGet_nil {β : Type} (k : Addr) : mapGet ([] : List (Addr × β)) k = none := rfl

theorem mapGet_cons {β : Type} (p : Addr × β) (m : List (Addr × β)) (k : Addr) :
    mapGet (p :: m) k = if k = p.1 then some p.2 else mapGet m k := by
  cases p with
  | mk a b =>
    simp only [mapGet, List.lookup]
    by_cases h : k = a
    · simp [h]
    · have hb : (k == a) = false := by simp [h]
      simp [h, hb]

theorem mapGet_filter_ne {β : Type} (m : List (Addr × β)) (k x : Addr)
    (h : x ≠ k) :
    mapGet (m.filter (fun p => p.1 != k)) x = mapGet m x := by
  induction m with
  | nil => rfl
  | cons p t ih =>
    by_cases hp : p.1 = k
    · have : (p.1 != k) = false := by simp [hp]
      simp only [List.filter, this]
      rw [ih, mapGet_cons]
      have : ¬ x = p.1 := by rw [hp]; exact h
      simp [this]
    · have : (p.1 != k) = true := by simp [hp]
      simp only [List.filter, this]
      rw [mapGet_cons, mapGet_cons, ih]

theorem mapGet_insert_self {β : Type} (m : List (Addr × β)) (k : Addr) (v : β) :
    mapGet (mapInsert m k v) k = some v := by
  simp [mapInsert, mapGet_cons]

theorem mapGet_insert_ne {β : Type} (m : List (Addr × β)) (k x : Addr) (v : β)
    (h : x ≠ k) :
    mapGet (mapInsert m k v) x = mapGet m x := by
  simp only [mapInsert]
  rw [mapGet_cons]
  simp only [h, if_false]
  exact mapGet_filter_ne m k x h

/-! ## src/common.rs -/

/-- Magic prefix of a margin-account record (`MARGINFI_ACCOUNT_DISCRIMINATOR`). -/
def MARGINFI_ACCOUNT_DISC : List Nat := [67, 178, 130, 109, 126, 114, 28, 42]

/-- Length of the margin-account magic prefix. -/
def MARGINFI_ACCOUNT_DISC_LEN : Nat := MARGINFI_ACCOUNT_DISC.length

/-- Magic prefix of a bank record (`MARGINFI_BANK_DISCRIMINATOR`). -/
def MARGINFI_BANK_DISC : List Nat := [142, 49, 166, 242, 50, 66, 97, 188]

/-- Length of the bank magic prefix. -/
def MARGINFI_BANK_DISC_LEN : Nat := MARGINFI_BANK_DISC.length

/-- Kinds of update events (`common::MessageType`). -/
inductive MessageType where
  | Clock
  | MarginfiAccount
  | Bank
  | Oracle
deriving DecidableEq

/-- The discriminator classifier `common::get_marginfi_message_type`.
Total by construction: `List.isPrefixOf` (Rust `starts_with`) never
indexes out of bounds, so no input can panic. -/
def get_marginfi_message_type (account_data : List Nat) : Option MessageType :=
  if account_data.length > MARGINFI_ACCOUNT_DISC_LEN
      && MARGINFI_ACCOUNT_DISC.isPrefixOf account_data then
    some MessageType.MarginfiAccount
  else if account_data.length > MARGINFI_BANK_DISC_LEN
      && MARGINFI_BANK_DISC.isPrefixOf account_data then
    some MessageType.Bank
  else
    none

/-! ## src/cache/banks.rs -/

/-- The oracle configuration variants (`marginfi::state::price::OracleSetup`,
collapsed to the variants the code distinguishes). -/
inductive OracleSetup where
  | NoneSetup
  | SwitchboardPull
  | PythPushOracle
  | OtherSetup
deriving DecidableEq

/-- A fetched ledger account (`solana_sdk::account::Account`); only the
fields the embedded code reads are kept. -/
structure Account where
  data : List Nat
  owner : Addr
deriving DecidableEq

/-- Embeds `marginfi_type_crate::types::BankConfig`, restricted to the fields read
by the code. `oracle_keys` is a `[Pubkey; 5]` array, modelled as a list. -/
structure BankConfig where
  oracle_setup : OracleSetup
  oracle_keys : List Addr
deriving DecidableEq

/-- Embeds `marginfi_type_crate::types::Bank`, restricted to the fields read by
the code. -/
structure Bank where
  mint : Addr
  mint_decimals : Nat
  group : Addr
  config : BankConfig
deriving DecidableEq

/-- Embeds `banks::get_oracle_accounts`: drops null/default oracle keys. -/
def get_oracle_accounts (bank_config : BankConfig) : List Addr :=
  bank_config.oracle_keys.filter (fun key => key != 0)

/-- Embeds `banks::CachedBankOracle`. -/
structure CachedBankOracle where
  oracle_type : OracleSetup
  oracle_addresses : List Addr
deriving DecidableEq

/-- Embeds `banks::CachedBank`. -/
structure CachedBank where
  slot : Nat
  address : Addr
  mint_decimals : Nat
  mint : Addr
  group : Addr
  oracle : CachedBankOracle
deriving DecidableEq

/-- Embeds `CachedBank::from`. -/
def CachedBank.from (slot : Nat) (address : Addr) (bank : Bank) : CachedBank :=
  { slot := slot
    address := address
    mint := bank.mint
    mint_decimals := bank.mint_decimals
    group := bank.group
    oracle :=
      { oracle_type := bank.config.oracle_setup
        oracle_addresses := get_oracle_accounts bank.config } }

/-- State of `BanksCache`: the `RwLock<HashMap<..>>`, with the lock's
poison flag made explicit. -/
structure BanksCacheState where
  poisoned : Bool
  banks : List (Addr × CachedBank)
deriving DecidableEq

/-- Embeds `BanksCache::update`. -/
def BanksCache.update (st : BanksCacheState) (slot : Nat) (address : Addr)
    (bank : Bank) : Outcome BanksCacheState :=
  let upd := CachedBank.from slot address bank
  if st.poisoned then .err .lockPoisoned
  else if (match mapGet st.banks address with
           | none => true
           | some existing => decide (existing.slot < upd.slot)) then
    .ok { st with banks := mapInsert st.banks address upd }
  else
    .ok st

/-- Embeds `BanksCache::get_mints`. -/
def BanksCache.get_mints (st : BanksCacheState) : Outcome (List Addr) :=
  if st.poisoned then .err .lockPoisoned
  else .ok (st.banks.map (fun p => p.2.mint))

/-- Embeds `BanksCache::get_oracles_data`. -/
def BanksCache.get_oracles_data (st : BanksCacheState) :
    Outcome (List CachedBankOracle) :=
  if st.poisoned then .err .lockPoisoned
  else .ok (st.banks.map (fun p => p.2.oracle))

/-- Embeds `BanksCache::get`. -/
def BanksCache.get (st : BanksCacheState) (address : Addr) :
    Outcome CachedBank :=
  if st.poisoned then .err .lockPoisoned
  else
    match mapGet st.banks address with
    | some cached_bank => .ok cached_bank
    | none => .err .notFound

/-! ## src/cache/marginfi_accounts.rs -/

/-- Sentinel health score (`INVALID_HEALTH = i64::MIN`). -/
def INVALID_HEALTH : Int := -(2 ^ 63)

/-- Embeds `marginfi::state::health_cache::HealthCache`, restricted to the two
fields the code reads. The fields are `I80F48` numerators. -/
structure HealthCache where
  asset_value_maint : Int
  liability_value_maint : Int
deriving DecidableEq

/-- Embeds `marginfi::state::marginfi_account::Balance`, restricted to the fields
the code reads. Share fields are `I80F48` numerators. -/
structure Balance where
  active : Nat
  bank_pk : Addr
  asset_shares : Int
  liability_shares : Int
deriving DecidableEq

/-- Embeds `marginfi::state::marginfi_account::LendingAccount`; the `[Balance; 16]`
array is modelled as a list. -/
structure LendingAccount where
  balances : List Balance
deriving DecidableEq

/-- Embeds `marginfi::state::marginfi_account::MarginfiAccount`, restricted to the
fields the code reads. -/
structure MarginfiAccount where
  group : Addr
  lending_account : LendingAccount
  health_cache : HealthCache
deriving DecidableEq

/-- Embeds `I80F48::checked_div` on numerators: `none` when the divisor is zero or
the quotient overflows the `I80F48` range. The fixed-point quotient is the
exact quotient with the sub-`2 ^ (-48)` remainder discarded by the
underlying truncating (toward zero) 128-bit integer division. -/
def i80f48CheckedDiv (x y : Int) : Option Int :=
  if y = 0 then none
  else
    let q := Int.tdiv (x * 2 ^ 48) y
    if q < -(2 ^ 127) ∨ 2 ^ 127 ≤ q then none else some q

/-- Embeds `I80F48::to_num::<i64>` on a numerator: the 48 fractional bits are
discarded, which rounds toward negative infinity. -/
def i80f48ToNum (x : Int) : Int :=
  Int.fdiv x (2 ^ 48)

/-- Embeds `marginfi_accounts::CachedMarginfiAccount`. -/
structure CachedMarginfiAccount where
  slot : Nat
  address : Addr
  marginfi_account : MarginfiAccount
  positions : List Balance
deriving DecidableEq

/-- Embeds `CachedMarginfiAccount::from`: keeps only the active balances. -/
def CachedMarginfiAccount.from (slot : Nat) (address : Addr)
    (marginfi_account : MarginfiAccount) : CachedMarginfiAccount :=
  { slot := slot
    address := address
    marginfi_account := marginfi_account
    positions :=
      marginfi_account.lending_account.balances.filter
        (fun balance => balance.active != 0) }

/-- Embeds `CachedMarginfiAccount::asset_value_maint`. -/
def CachedMarginfiAccount.asset_value_maint (c : CachedMarginfiAccount) : Int :=
  c.marginfi_account.health_cache.asset_value_maint

/-- Embeds `CachedMarginfiAccount::liability_value_maint`. -/
def CachedMarginfiAccount.liability_value_maint (c : CachedMarginfiAccount) : Int :=
  c.marginfi_account.health_cache.liability_value_maint

/-- Embeds `CachedMarginfiAccount::health`:
`(asset_value_maint - liability_value_maint).checked_div(asset_value_maint)`
followed by `to_num::<i64>`. -/
def CachedMarginfiAccount.health (c : CachedMarginfiAccount) : Option Int :=
  (i80f48CheckedDiv (c.asset_value_maint - c.liability_value_maint)
      c.asset_value_maint).map i80f48ToNum

/-- State of `MarginfiAccountsCache`: the primary account map and the
mirrored health index, each behind its own lock. -/
structure MarginfiAccountsCacheState where
  accounts_poisoned : Bool
  health_poisoned : Bool
  accounts : List (Addr × CachedMarginfiAccount)
  account_to_health : List (Addr × Int)
deriving DecidableEq

/-- Embeds `MarginfiAccountsCache::update`: both locks are taken, and under the
monotonic-slot guard the account entry and its health-index mirror are
written together. -/
def MarginfiAccountsCache.update (st : MarginfiAccountsCacheState)
    (slot : Nat) (address : Addr) (account : MarginfiAccount) :
    Outcome MarginfiAccountsCacheState :=
  let upd := CachedMarginfiAccount.from slot address account
  let upd_health := upd.health
  if st.accounts_poisoned then .err .lockPoisoned
  else if st.health_poisoned then .err .lockPoisoned
  else if (match mapGet st.accounts address with
           | none => true
           | some existing => decide (existing.slot < upd.slot)) then
    .ok { st with
          accounts := mapInsert st.accounts address upd
          account_to_health :=
            match upd_health with
            | some h => mapInsert st.account_to_health address h
            | none => mapInsert st.account_to_health address INVALID_HEALTH }
  else
    .ok st

/-- Embeds `MarginfiAccountsCache::get_account` (also reached as the `get` used by
the liquidation service). -/
def MarginfiAccountsCache.get_account (st : MarginfiAccountsCacheState)
    (address : Addr) : Outcome CachedMarginfiAccount :=
  if st.accounts_poisoned then .err .lockPoisoned
  else
    match mapGet st.accounts address with
    | some a => .ok a
    | none => .err .notFound

/-- Embeds `MarginfiAccountsCache::get_accounts_with_health`. -/
def MarginfiAccountsCache.get_accounts_with_health
    (st : MarginfiAccountsCacheState) : Outcome (List (Addr × Int)) :=
  if st.health_poisoned then .err .lockPoisoned
  else .ok st.account_to_health

/-! ## src/cache/mints.rs -/

/-- Embeds `mints::CachedMint`. -/
structure CachedMint where
  address : Addr
  owner : Addr
deriving DecidableEq

/-- State of `MintsCache`. -/
structure MintsCacheState where
  poisoned : Bool
  mints : List (Addr × CachedMint)
deriving DecidableEq

/-- Embeds `MintsCache::update` (unconditional insert, no slot rule). -/
def MintsCache.update (st : MintsCacheState) (address : Addr)
    (mint : Account) : Outcome MintsCacheState :=
  let upd := CachedMint.mk address mint.owner
  if st.poisoned then .err .lockPoisoned
  else .ok { st with mints := mapInsert st.mints address upd }

/-- Embeds `MintsCache::get`. -/
def MintsCache.get (st : MintsCacheState) (address : Addr) :
    Outcome CachedMint :=
  if st.poisoned then .err .lockPoisoned
  else
    match mapGet st.mints address with
    | some m => .ok m
    | none => .err .notFound

/-! ## src/cache/luts.rs -/

/-- Embeds `solana_sdk::address_lookup_table::AddressLookupTableAccount`. -/
structure AddressLookupTableAccount where
  key : Addr
  addresses : List Addr
deriving DecidableEq

/-- State of `LutsCache`. -/
structure LutsCacheState where
  poisoned : Bool
  luts : List AddressLookupTableAccount
deriving DecidableEq

/-- Embeds `LutsCache::populate` (full replace, no merge). -/
def LutsCache.populate (st : LutsCacheState)
    (luts : List AddressLookupTableAccount) : Outcome LutsCacheState :=
  if st.poisoned then .err .lockPoisoned
  else .ok { st with luts := luts }

/-- Embeds `LutsCache::get_all`. -/
def LutsCache.get_all (st : LutsCacheState) :
    Outcome (List AddressLookupTableAccount) :=
  if st.poisoned then .err .lockPoisoned
  else .ok st.luts

/-! ## src/cache/oracles.rs -/

/-- The 8-byte magic of the pull-style (Switchboard) oracle account
(`switchboard_on_demand::PullFeedAccountData::DISCRIMINATOR`, an external
crate constant: the anchor account discriminator of `PullFeedAccountData`). -/
def SWB_PULL_FEED_DISC : List Nat := [196, 27, 108, 196, 10, 215, 219, 40]

/-- The 8-byte magic of the push-style (Pyth) oracle account
(`pyth_solana_receiver_sdk::price_update::PriceUpdateV2`'s anchor account
discriminator, checked inside the external
`PythPushOraclePriceFeed::load_unchecked`). -/
def PRICE_UPDATE_V2_DISC : List Nat := [34, 241, 35, 99, 157, 126, 244, 205]

/-- Embeds `marginfi::state::price::OraclePriceFeedAdapter`; the decoded feed
payloads are external-crate structures, kept as the raw bytes they were
decoded from. -/
inductive OraclePriceFeedAdapter where
  | SwitchboardPull (feed : List Nat)
  | PythPushOracle (feed : List Nat)
deriving DecidableEq

/-- Embeds `CachedPriceAdapter::parse_swb_adapter`. `pod_size` stands for
`std::mem::size_of::<PullFeedAccountData>()` (an external crate constant;
it is some fixed positive number of bytes). After the length and
discriminator checks the code takes the slice
`data[8..8 + pod_size]`, which panics (range out of bounds) whenever
`data.len() < 8 + pod_size`; on a slice of exactly `pod_size` bytes
`bytemuck::try_pod_read_unaligned` succeeds, a POD type accepting every
bit pattern of the right length. -/
def CachedPriceAdapter.parse_swb_adapter (pod_size : Nat) (data : List Nat) :
    Outcome OraclePriceFeedAdapter :=
  if data.length < 8 then .err .invalidLength
  else if data.take 8 ≠ SWB_PULL_FEED_DISC then .err .invalidDiscriminator
  else if data.length < 8 + pod_size then .panicked
  else .ok (.SwitchboardPull ((data.drop 8).take pod_size))

/-- Modelled from the spec: `PythPushOraclePriceFeed::load_unchecked` is
external (marginfi crate) code; per the spec it validates the first 8
bytes against the variant-specific magic constant and then structurally
deserializes the self-describing record that follows. -/
def PythPushOraclePriceFeed.load_unchecked (data : List Nat) :
    Outcome (List Nat) :=
  if data.take 8 ≠ PRICE_UPDATE_V2_DISC then .err .invalidDiscriminator
  else .ok (data.drop 8)

/-- Embeds `CachedPriceAdapter::parse_pyth_adapter`. -/
def CachedPriceAdapter.parse_pyth_adapter (address : Addr)
    (account : Account) : Outcome OraclePriceFeedAdapter :=
  if account.data.length < 8 then .err .invalidLength
  else
    match PythPushOraclePriceFeed.load_unchecked account.data with
    | .ok feed => .ok (.PythPushOracle feed)
    | .err e => .err e
    | .panicked => .panicked

/-- Embeds `oracles::CachedPriceAdapter`. -/
structure CachedPriceAdapter where
  slot : Nat
  adapter : OraclePriceFeedAdapter
deriving DecidableEq

/-- Embeds `CachedPriceAdapter::from`. -/
def CachedPriceAdapter.from (pod_size : Nat) (slot : Nat)
    (oracle_type : OracleSetup) (address : Addr) (account : Account) :
    Outcome CachedPriceAdapter :=
  match oracle_type with
  | .SwitchboardPull =>
    match CachedPriceAdapter.parse_swb_adapter pod_size account.data with
    | .ok adapter => .ok { slot := slot, adapter := adapter }
    | .err e => .err e
    | .panicked => .panicked
  | .PythPushOracle =>
    match CachedPriceAdapter.parse_pyth_adapter address account with
    | .ok adapter => .ok { slot := slot, adapter := adapter }
    | .err e => .err e
    | .panicked => .panicked
  | _ => .err .unsupportedOracleType

/-- Embeds `oracles::CachedOracle`. -/
structure CachedOracle where
  address : Addr
  oracle_type : OracleSetup
  adapter : Option CachedPriceAdapter
deriving DecidableEq

/-- State of `OraclesCache`. -/
structure OraclesCacheState where
  poisoned : Bool
  oracles : List (Addr × CachedOracle)
deriving DecidableEq

/-- Embeds `OraclesCache::insert`: a decode failure is logged and demoted to
`adapter = None`; the identity entry is inserted either way. A panic
inside `CachedPriceAdapter::from` is not caught and propagates. -/
def OraclesCache.insert (pod_size : Nat) (st : OraclesCacheState)
    (slot : Nat) (address : Addr) (oracle_type : OracleSetup)
    (account : Account) : Outcome OraclesCacheState :=
  match CachedPriceAdapter.from pod_size slot oracle_type address account with
  | .panicked => .panicked
  | res =>
    let adapter : Option CachedPriceAdapter :=
      match res with
      | .ok a => some a
      | _ => none
    if st.poisoned then .err .lockPoisoned
    else
      .ok { st with
            oracles := mapInsert st.oracles address
              (CachedOracle.mk address oracle_type adapter) }

/-- Embeds `OraclesCache::update`: only refreshes an existing entry, and only when
the incoming slot is strictly newer than the cached adapter's slot (`0`
when no adapter is cached); a decode failure is logged and the previous
adapter is kept; an unknown address is a silent no-op. -/
def OraclesCache.update (pod_size : Nat) (st : OraclesCacheState)
    (slot : Nat) (address : Addr) (account : Account) :
    Outcome OraclesCacheState :=
  if st.poisoned then .err .lockPoisoned
  else
    match mapGet st.oracles address with
    | none => .ok st
    | some cached_oracle =>
      if (match cached_oracle.adapter with
          | some a => a.slot
          | none => 0) < slot then
        match CachedPriceAdapter.from pod_size slot cached_oracle.oracle_type
            address account with
        | .ok adapter =>
          .ok { st with
                oracles := mapInsert st.oracles address
                  { cached_oracle with adapter := some adapter } }
        | .err _ => .ok st
        | .panicked => .panicked
      else .ok st

/-- Embeds `OraclesCache::get`. -/
def OraclesCache.get (st : OraclesCacheState) (address : Addr) :
    Outcome (Option CachedOracle) :=
  if st.poisoned then .err .lockPoisoned
  else .ok (mapGet st.oracles address)

/-- Embeds `OraclesCache::get_oracle_addresses`: the lock error is mapped and then
immediately `unwrap()`-ed, so a poisoned lock panics instead of being
returned; the signature has no error channel (`Vec<Pubkey>`, not
`Result`). -/
def OraclesCache.get_oracle_addresses (st : OraclesCacheState) :
    Outcome (List Addr) :=
  if st.poisoned then .panicked
  else .ok (st.oracles.map (fun p => p.1))

/-! ## src/cache.rs : the Cache aggregate and the clock -/

/-- Embeds `solana_program::clock::Clock`. -/
structure Clock where
  slot : Nat
  epoch : Nat
  unix_timestamp : Int
  epoch_start_timestamp : Int
  leader_schedule_epoch : Nat
deriving DecidableEq

/-- State of `cache::Cache`: the clock lock plus the six entity caches. -/
structure CacheState where
  clock_poisoned : Bool
  clock : Clock
  marginfi_accounts : MarginfiAccountsCacheState
  banks : BanksCacheState
  mints : MintsCacheState
  oracles : OraclesCacheState
  luts : LutsCacheState
deriving DecidableEq

/-- Embeds `Cache::update_clock`. -/
def Cache.update_clock (st : CacheState) (clock : Clock) :
    Outcome CacheState :=
  if st.clock_poisoned then .err .lockPoisoned
  else .ok { st with clock := clock }

/-- Embeds `Cache::get_clock`. -/
def Cache.get_clock (st : CacheState) : Outcome Clock :=
  if st.clock_poisoned then .err .lockPoisoned
  else .ok st.clock

/-! ## src/cache.rs : CacheLoader

The JSON-RPC fetch client is an external collaborator: the accounts it
returns enter the loader as parameters (`none` models a hard transport
failure of the whole batch call, which propagates). The binary
deserializers `MarginfiAccount::try_deserialize` / `Bank::try_deserialize`
are external crate code and enter as function parameters. -/

/-- The body of the `CacheLoader::load_accounts` loop over the fetched
program accounts: classify, deserialize (a failure propagates via `?`) and
upsert into the matching cache with the single `slot` read before the
loop. -/
def CacheLoader.load_accounts_loop
    (des_marginfi_account : List Nat → Option MarginfiAccount)
    (des_bank : List Nat → Option Bank) (slot : Nat) :
    List (Addr × Account) → CacheState → Outcome CacheState
  | [], cache => .ok cache
  | (address, account) :: rest, cache =>
    match get_marginfi_message_type account.data with
    | some .MarginfiAccount =>
      match des_marginfi_account account.data with
      | none => .err .decodeFailed
      | some marginfi_account =>
        match MarginfiAccountsCache.update cache.marginfi_accounts slot
            address marginfi_account with
        | .ok st => CacheLoader.load_accounts_loop des_marginfi_account
            des_bank slot rest { cache with marginfi_accounts := st }
        | .err e => .err e
        | .panicked => .panicked
    | some .Bank =>
      match des_bank account.data with
      | none => .err .decodeFailed
      | some bank =>
        match BanksCache.update cache.banks slot address bank with
        | .ok st => CacheLoader.load_accounts_loop des_marginfi_account
            des_bank slot rest { cache with banks := st }
        | .err e => .err e
        | .panicked => .panicked
    | _ => CacheLoader.load_accounts_loop des_marginfi_account des_bank slot
        rest cache

/-- Embeds `CacheLoader::load_accounts`: reads the clock slot once, fetches every
program-owned account, then runs the classification loop stamping every
record with that one slot. -/
def CacheLoader.load_accounts
    (des_marginfi_account : List Nat → Option MarginfiAccount)
    (des_bank : List Nat → Option Bank)
    (program_accounts : Option (List (Addr × Account)))
    (cache : CacheState) : Outcome CacheState :=
  match Cache.get_clock cache with
  | .err e => .err e
  | .panicked => .panicked
  | .ok clock =>
    match program_accounts with
    | none => .err .fetchFailed
    | some accounts =>
      CacheLoader.load_accounts_loop des_marginfi_account des_bank clock.slot
        accounts cache

/-- The inner loop of `CacheLoader::load_oracles` over one bank's oracle
addresses: a missing fetched account is logged and skipped; an `Err` from
`OraclesCache::insert` is logged and skipped; only a panic escapes. -/
def CacheLoader.load_oracles_addrs (pod_size : Nat) (slot : Nat)
    (fetched : Addr → Option Account) (oracle_type : OracleSetup) :
    List Addr → OraclesCacheState → Outcome OraclesCacheState
  | [], st => .ok st
  | address :: rest, st =>
    match fetched address with
    | none =>
      CacheLoader.load_oracles_addrs pod_size slot fetched oracle_type rest st
    | some account =>
      match OraclesCache.insert pod_size st slot address oracle_type account with
      | .ok st' =>
        CacheLoader.load_oracles_addrs pod_size slot fetched oracle_type rest st'
      | .err _ =>
        CacheLoader.load_oracles_addrs pod_size slot fetched oracle_type rest st
      | .panicked => .panicked

/-- The outer loop of `CacheLoader::load_oracles` over the per-bank oracle
data. -/
def CacheLoader.load_oracles_loop (pod_size : Nat) (slot : Nat)
    (fetched : Addr → Option Account) :
    List CachedBankOracle → OraclesCacheState → Outcome OraclesCacheState
  | [], st => .ok st
  | od :: rest, st =>
    match CacheLoader.load_oracles_addrs pod_size slot fetched od.oracle_type
        od.oracle_addresses st with
    | .ok st' => CacheLoader.load_oracles_loop pod_size slot fetched rest st'
    | .err e => .err e
    | .panicked => .panicked

/-- Embeds `CacheLoader::load_oracles`: reads the clock slot, collects the per-bank
oracle data, batch-fetches the oracle accounts (`fetch_result = none`
models a hard transport failure of the batch call, which propagates via
`?`; a key missing from a successful batch is a per-oracle fetch failure),
then inserts each oracle, skipping per-oracle failures. -/
def CacheLoader.load_oracles (pod_size : Nat)
    (fetch_result : Option (Addr → Option Account)) (cache : CacheState) :
    Outcome CacheState :=
  match Cache.get_clock cache with
  | .err e => .err e
  | .panicked => .panicked
  | .ok clock =>
    match BanksCache.get_oracles_data cache.banks with
    | .err e => .err e
    | .panicked => .panicked
    | .ok oracles_data =>
      match fetch_result with
      | none => .err .fetchFailed
      | some fetched =>
        match CacheLoader.load_oracles_loop pod_size clock.slot fetched
            oracles_data cache.oracles with
        | .ok st => .ok { cache with oracles := st }
        | .err e => .err e
        | .panicked => .panicked

/-! ## src/service/liquidation_service.rs -/

/-- Embeds `liquidation_service::sort_accounts_by_health`: the snapshotted
health map is sorted with the comparator `b.1.cmp(&a.1)`, i.e. by health
score in descending order (`sort_by` is stable), and the addresses are
returned in that order. -/
def sort_accounts_by_health (accounts : List (Addr × Int)) : List Addr :=
  (List.insertionSort (fun a b : Addr × Int => b.2 ≤ a.2) accounts).map
    (fun p => p.1)

/-! ## src/service/geyser_processor.rs -/

/-- A pre-classified streaming update event
(`geyser_subscriber::GeyserMessage`). -/
structure GeyserMessage where
  message_type : MessageType
  slot : Nat
  address : Addr
  account : Account
deriving DecidableEq

/-- What one `geyser_rx.recv()` call yields: a message, or the error of a
closed/broken queue. -/
inductive RecvResult where
  | msg (m : GeyserMessage)
  | recvFailed
deriving DecidableEq

/-- Embeds `GeyserProcessor::process_message`: dispatches the event to the
matching cache's decode-and-upsert path. `des_clock` stands for the
external `bincode::deserialize::<Clock>`. -/
def GeyserProcessor.process_message (pod_size : Nat)
    (des_clock : List Nat → Option Clock)
    (des_marginfi_account : List Nat → Option MarginfiAccount)
    (des_bank : List Nat → Option Bank) (cache : CacheState)
    (msg : GeyserMessage) : Outcome CacheState :=
  match msg.message_type with
  | .Clock =>
    match des_clock msg.account.data with
    | none => .err .decodeFailed
    | some clock => Cache.update_clock cache clock
  | .MarginfiAccount =>
    match des_marginfi_account msg.account.data with
    | none => .err .decodeFailed
    | some marginfi_account =>
      match MarginfiAccountsCache.update cache.marginfi_accounts msg.slot
          msg.address marginfi_account with
      | .ok st => .ok { cache with marginfi_accounts := st }
      | .err e => .err e
      | .panicked => .panicked
  | .Bank =>
    match des_bank msg.account.data with
    | none => .err .decodeFailed
    | some bank =>
      match BanksCache.update cache.banks msg.slot msg.address bank with
      | .ok st => .ok { cache with banks := st }
      | .err e => .err e
      | .panicked => .panicked
  | .Oracle =>
    match OraclesCache.update pod_size cache.oracles msg.slot msg.address
        msg.account with
    | .ok st => .ok { cache with oracles := st }
    | .err e => .err e
    | .panicked => .panicked

/-- Observable fate of the `GeyserProcessor::run` loop over a finite trace
of loop iterations. -/
inductive RunResult where
  | stoppedOk (cache : CacheState)
  | running (cache : CacheState)
  | panicked
deriving DecidableEq

/-- One iteration of `GeyserProcessor::run` reads the stop flag and, when
it is clear, blocks on `recv()`; the trace records, per iteration, the
flag value observed and what `recv()` yielded. A recv error is logged and
the loop continues; an `Err` from `process_message` is logged and the
loop continues; when the flag is observed set the loop exits and `run`
returns `Ok(())`. A trace that runs out before the flag is set leaves the
loop still running. -/
def GeyserProcessor.run (pod_size : Nat)
    (des_clock : List Nat → Option Clock)
    (des_marginfi_account : List Nat → Option MarginfiAccount)
    (des_bank : List Nat → Option Bank) :
    List (Bool × RecvResult) → CacheState → RunResult
  | [], cache => .running cache
  | (stop_observed, recv_result) :: rest, cache =>
    if stop_observed then .stoppedOk cache
    else
      match recv_result with
      | .recvFailed =>
        GeyserProcessor.run pod_size des_clock des_marginfi_account des_bank
          rest cache
      | .msg m =>
        match GeyserProcessor.process_message pod_size des_clock
            des_marginfi_account des_bank cache m with
        | .ok cache' =>
          GeyserProcessor.run pod_size des_clock des_marginfi_account des_bank
            rest cache'
        | .err _ =>
          GeyserProcessor.run pod_size des_clock des_marginfi_account des_bank
            rest cache
        | .panicked => .panicked

/-! ## Helper lemmas shared by the claim proofs -/

/-- The health score that `MarginfiAccountsCache::update` mirrors into the
health index: the computed health, or the sentinel when unavailable. -/
def healthScoreOf (c : CachedMarginfiAccount) : Int :=
  match c.health with
  | some h => h
  | none => INVALID_HEALTH

theorem cachedBank_from_slot (s : Nat) (a : Addr) (b : Bank) :
    (CachedBank.from s a b).slot = s := rfl

theorem cachedMarginfiAccount_from_slot (s : Nat) (a : Addr)
    (acct : MarginfiAccount) : (CachedMarginfiAccount.from s a acct).slot = s := rfl

theorem banksUpdate_applies (m : List (Addr × CachedBank)) (s : Nat)
    (a : Addr) (b : Bank) (h : ∀ c, mapGet m a = some c → c.slot < s) :
    BanksCache.update ⟨false, m⟩ s a b =
      .ok ⟨false, mapInsert m a (CachedBank.from s a b)⟩ := by
  unfold BanksCache.update
  cases hma : mapGet m a with
  | none => simp [hma]
  | some c => simp [hma, h c hma, CachedBank.from]

theorem banksUpdate_noop (m : List (Addr × CachedBank)) (s : Nat) (a : Addr)
    (b : Bank) (c : CachedBank) (hc : mapGet m a = some c)
    (hs : s ≤ c.slot) :
    BanksCache.update ⟨false, m⟩ s a b = .ok ⟨false, m⟩ := by
  unfold BanksCache.update
  have : ¬ c.slot < (CachedBank.from s a b).slot := by
    simp [CachedBank.from]
    exact hs
  simp [hc, this]

theorem marginfiUpdate_applies (m : List (Addr × CachedMarginfiAccount))
    (hm : List (Addr × Int)) (s : Nat) (a : Addr) (acct : MarginfiAccount)
    (h : ∀ c, mapGet m a = some c → c.slot < s) :
    MarginfiAccountsCache.update ⟨false, false, m, hm⟩ s a acct =
      .ok ⟨false, false, mapInsert m a (CachedMarginfiAccount.from s a acct),
        mapInsert hm a (healthScoreOf (CachedMarginfiAccount.from s a acct))⟩ := by
  unfold MarginfiAccountsCache.update
  cases hh : (CachedMarginfiAccount.from s a acct).health with
  | none =>
    cases hma : mapGet m a with
    | none => simp [hma, hh, healthScoreOf]
    | some c =>
      simp [hma, h c hma, hh, healthScoreOf, cachedMarginfiAccount_from_slot]
  | some hv =>
    cases hma : mapGet m a with
    | none => simp [hma, hh, healthScoreOf]
    | some c =>
      simp [hma, h c hma, hh, healthScoreOf, cachedMarginfiAccount_from_slot]

theorem marginfiUpdate_noop (m : List (Addr × CachedMarginfiAccount))
    (hm : List (Addr × Int)) (s : Nat) (a : Addr) (acct : MarginfiAccount)
    (c : CachedMarginfiAccount) (hc : mapGet m a = some c)
    (hs : s ≤ c.slot) :
    MarginfiAccountsCache.update ⟨false, false, m, hm⟩ s a acct =
      .ok ⟨false, false, m, hm⟩ := by
  unfold MarginfiAccountsCache.update
  have hns : ¬ c.slot < (CachedMarginfiAccount.from s a acct).slot := by
    simp [CachedMarginfiAccount.from]
    exact hs
  simp [hc, hns]

/-! ## Claim theorems -/

/-- C6: the discriminator classifier is total; any byte sequence whose
length is not strictly greater than the shared 8-byte magic length, and
any sequence whose prefix matches neither discriminator constant, is
classified as Unrecognized (`none`). The embedded function is total by
construction (Rust `starts_with` never indexes out of bounds), so no
input can panic. -/
theorem C6_classifier_unrecognized :
    ∀ account_data : List Nat,
      (account_data.length ≤ MARGINFI_ACCOUNT_DISC_LEN →
        get_marginfi_message_type account_data = none) ∧
      (MARGINFI_ACCOUNT_DISC.isPrefixOf account_data = false →
        MARGINFI_BANK_DISC.isPrefixOf account_data = false →
        get_marginfi_message_type account_data = none) := by
  intro ad
  constructor
  · intro h
    have hA : ¬ ad.length > MARGINFI_ACCOUNT_DISC_LEN := Nat.not_lt.mpr h
    have hB : ¬ ad.length > MARGINFI_BANK_DISC_LEN := by
      have e : MARGINFI_BANK_DISC_LEN = MARGINFI_ACCOUNT_DISC_LEN := rfl
      rw [e]; exact Nat.not_lt.mpr h
    simp [get_marginfi_message_type, hA, hB]
  · intro h1 h2
    simp [get_marginfi_message_type, h1, h2]

/-- Witness for C6 at concrete inputs: a 3-byte buffer (too short) and a
9-byte buffer matching neither magic prefix. -/
theorem C6_classifier_unrecognized_witness :
    get_marginfi_message_type [1, 2, 3] = none ∧
    get_marginfi_message_type [0, 0, 0, 0, 0, 0, 0, 0, 0] = none :=
  ⟨(C6_classifier_unrecognized [1, 2, 3]).1 (by decide),
   (C6_classifier_unrecognized [0, 0, 0, 0, 0, 0, 0, 0, 0]).2 (by decide)
     (by decide)⟩

/-- C3: evaluating the visit-order computation of the liquidation cycle at
a two-candidate health snapshot. The account with health `5` is visited
before the account with health `-3`: the comparator `b.1.cmp(&a.1)` sorts
by health in descending order, so the healthiest accounts are visited
first and the most liquidation-eligible (lowest or negative score, and the
`i64::MIN` sentinel) are visited last, contradicting the claimed ascending
order. -/
theorem C3_sort_is_descending :
    sort_accounts_by_health [(1, 5), (2, -3)] = [1, 2] ∧
    sort_accounts_by_health [(1, 5), (2, -3)] ≠ [2, 1] ∧
    sort_accounts_by_health [(1, 5), (2, 3)] = [1, 2] ∧
    sort_accounts_by_health [(1, 5), (2, 3)] ≠ [2, 1] := by
  refine ⟨?_, ?_, ?_, ?_⟩ <;> decide

/-- C5: the oracle decoders return the typed invalid-length error on
buffers shorter than 8 bytes and the typed invalid-discriminator error on
valid-length buffers with a wrong magic, for both variants — but a
pull-style (Switchboard) buffer that carries the correct 8-byte magic and
nothing after it makes `parse_swb_adapter` take the out-of-range slice
`data[8..8 + size_of::<PullFeedAccountData>()]` and panic instead of
returning a typed error (shown for the actual POD size 3208 and, equally,
for a 1-byte POD). -/
theorem C5_swb_truncated_input_panics :
    CachedPriceAdapter.parse_swb_adapter 3208 [0, 0, 0, 0] =
      .err .invalidLength ∧
    CachedPriceAdapter.parse_swb_adapter 3208 [1, 1, 1, 1, 1, 1, 1, 1] =
      .err .invalidDiscriminator ∧
    CachedPriceAdapter.parse_pyth_adapter 7 ⟨[0, 0, 0, 0], 0⟩ =
      .err .invalidLength ∧
    CachedPriceAdapter.parse_pyth_adapter 7 ⟨[1, 1, 1, 1, 1, 1, 1, 1], 0⟩ =
      .err .invalidDiscriminator ∧
    CachedPriceAdapter.parse_swb_adapter 3208 SWB_PULL_FEED_DISC =
      .panicked ∧
    CachedPriceAdapter.parse_swb_adapter 1 SWB_PULL_FEED_DISC =
      .panicked := by
  refine ⟨?_, ?_, ?_, ?_, ?_, ?_⟩ <;> decide

/-- C1: on both slot-bearing entity caches (banks/pools and
marginfi-accounts/positions), two upserts with slots `s1 < s2`, applied in
either order to a store whose entry at the address (if any) is older than
`s2`, leave the entry equal to the value built from the maximum slot `s2`,
and the two orders produce extensionally equal stores; an upsert whose
slot is at most the stored slot returns success and leaves the state
unchanged. -/
theorem C1_upsert_monotone_commutative :
    (∀ (m : List (Addr × CachedBank)) (a : Addr) (s1 s2 : Nat) (b1 b2 : Bank)
        (st1 st2 st1' st2' : BanksCacheState),
      s1 < s2 →
      (∀ c, mapGet m a = some c → c.slot < s2) →
      BanksCache.update ⟨false, m⟩ s1 a b1 = .ok st1 →
      BanksCache.update st1 s2 a b2 = .ok st2 →
      BanksCache.update ⟨false, m⟩ s2 a b2 = .ok st1' →
      BanksCache.update st1' s1 a b1 = .ok st2' →
      mapGet st2.banks a = some (CachedBank.from s2 a b2) ∧
      (CachedBank.from s2 a b2).slot = max s1 s2 ∧
      (∀ x, mapGet st2.banks x = mapGet st2'.banks x)) ∧
    (∀ (m : List (Addr × CachedBank)) (a : Addr) (s : Nat) (b : Bank)
        (c : CachedBank),
      mapGet m a = some c → s ≤ c.slot →
      BanksCache.update ⟨false, m⟩ s a b = .ok ⟨false, m⟩) ∧
    (∀ (m : List (Addr × CachedMarginfiAccount)) (hm : List (Addr × Int))
        (a : Addr) (s1 s2 : Nat) (acct1 acct2 : MarginfiAccount)
        (st1 st2 st1' st2' : MarginfiAccountsCacheState),
      s1 < s2 →
      (∀ c, mapGet m a = some c → c.slot < s2) →
      MarginfiAccountsCache.update ⟨false, false, m, hm⟩ s1 a acct1 = .ok st1 →
      MarginfiAccountsCache.update st1 s2 a acct2 = .ok st2 →
      MarginfiAccountsCache.update ⟨false, false, m, hm⟩ s2 a acct2 = .ok st1' →
      MarginfiAccountsCache.update st1' s1 a acct1 = .ok st2' →
      mapGet st2.accounts a = some (CachedMarginfiAccount.from s2 a acct2) ∧
      (CachedMarginfiAccount.from s2 a acct2).slot = max s1 s2 ∧
      (∀ x, mapGet st2.accounts x = mapGet st2'.accounts x)) ∧
    (∀ (m : List (Addr × CachedMarginfiAccount)) (hm : List (Addr × Int))
        (a : Addr) (s : Nat) (acct : MarginfiAccount)
        (c : CachedMarginfiAccount),
      mapGet m a = some c → s ≤ c.slot →
      MarginfiAccountsCache.update ⟨false, false, m, hm⟩ s a acct =
        .ok ⟨false, false, m, hm⟩) := by
  refine ⟨?_, ?_, ?_, ?_⟩
  · intro m a s1 s2 b1 b2 st1 st2 st1' st2' h12 holder h1 h2 h1' h2'
    -- Determine st1: the first upsert either inserted at slot s1 or left m.
    have hst1 : st1 = ⟨false, mapInsert m a (CachedBank.from s1 a b1)⟩ ∨
        st1 = ⟨false, m⟩ := by
      unfold BanksCache.update at h1
      cases hma : mapGet m a with
      | none =>
        simp [hma] at h1
        exact Or.inl h1.symm
      | some c =>
        by_cases hcs : c.slot < s1
        · simp [hma, hcs, cachedBank_from_slot] at h1
          exact Or.inl h1.symm
        · simp [hma, hcs, cachedBank_from_slot] at h1
          exact Or.inr h1.symm
    -- Either way, the entry at `a` in st1 (if any) is older than s2.
    have holder1 : ∀ c, mapGet st1.banks a = some c → c.slot < s2 := by
      rcases hst1 with h | h <;> subst h
      · intro c hc
        rw [mapGet_insert_self] at hc
        cases hc
        simpa [cachedBank_from_slot] using h12
      · exact holder
    -- So the second upsert of the first order applied.
    have h2e := banksUpdate_applies st1.banks s2 a b2 holder1
    have hst1flat : (⟨st1.poisoned, st1.banks⟩ : BanksCacheState) = st1 := rfl
    have hst1p : st1.poisoned = false := by
      rcases hst1 with h | h <;> subst h <;> rfl
    rw [show st1 = ⟨false, st1.banks⟩ from by rw [← hst1p]] at h2
    rw [h2e] at h2
    cases h2
    -- The first upsert of the second order applied directly.
    have h1e := banksUpdate_applies m s2 a b2 holder
    rw [h1e] at h1'
    cases h1'
    -- The second upsert of the second order is a ≤-slot no-op.
    have h2e' := banksUpdate_noop (mapInsert m a (CachedBank.from s2 a b2)) s1
      a b1 (CachedBank.from s2 a b2) (mapGet_insert_self _ _ _)
      (by simpa [cachedBank_from_slot] using Nat.le_of_lt h12)
    rw [h2e'] at h2'
    cases h2'
    refine ⟨mapGet_insert_self _ _ _, by simp [cachedBank_from_slot, Nat.max_eq_right (Nat.le_of_lt h12)], ?_⟩
    intro x
    by_cases hx : x = a
    · subst hx
      simp [mapGet_insert_self]
    · rw [mapGet_insert_ne _ _ _ _ hx, mapGet_insert_ne _ _ _ _ hx]
      rcases hst1 with h | h
      · have : st1.banks = mapInsert m a (CachedBank.from s1 a b1) := by rw [h]
        rw [this, mapGet_insert_ne _ _ _ _ hx]
      · have : st1.banks = m := by rw [h]
        rw [this]
  · intro m a s b c hc hs
    exact banksUpdate_noop m s a b c hc hs
  · intro m hm a s1 s2 acct1 acct2 st1 st2 st1' st2' h12 holder h1 h2 h1' h2'
    have hst1 : st1 = ⟨false, false,
        mapInsert m a (CachedMarginfiAccount.from s1 a acct1),
        mapInsert hm a (healthScoreOf (CachedMarginfiAccount.from s1 a acct1))⟩ ∨
        st1 = ⟨false, false, m, hm⟩ := by
      unfold MarginfiAccountsCache.update at h1
      cases hma : mapGet m a with
      | none =>
        cases hh : (CachedMarginfiAccount.from s1 a acct1).health with
        | none =>
          simp [hma, hh] at h1
          rw [show healthScoreOf (CachedMarginfiAccount.from s1 a acct1) =
            INVALID_HEALTH from by simp [healthScoreOf, hh]]
          exact Or.inl h1.symm
        | some hv =>
          simp [hma, hh] at h1
          rw [show healthScoreOf (CachedMarginfiAccount.from s1 a acct1) =
            hv from by simp [healthScoreOf, hh]]
          exact Or.inl h1.symm
      | some c =>
        by_cases hcs : c.slot < s1
        · cases hh : (CachedMarginfiAccount.from s1 a acct1).health with
          | none =>
            simp [hma, hcs, hh, cachedMarginfiAccount_from_slot] at h1
            rw [show healthScoreOf (CachedMarginfiAccount.from s1 a acct1) =
              INVALID_HEALTH from by simp [healthScoreOf, hh]]
            exact Or.inl h1.symm
          | some hv =>
            simp [hma, hcs, hh, cachedMarginfiAccount_from_slot] at h1
            rw [show healthScoreOf (CachedMarginfiAccount.from s1 a acct1) =
              hv from by simp [healthScoreOf, hh]]
            exact Or.inl h1.symm
        · simp [hma, hcs, cachedMarginfiAccount_from_slot] at h1
          exact Or.inr h1.symm
    have holder1 : ∀ c, mapGet st1.accounts a = some c → c.slot < s2 := by
      rcases hst1 with h | h <;> subst h
      · intro c hc
        rw [mapGet_insert_self] at hc
        cases hc
        simpa [cachedMarginfiAccount_from_slot] using h12
      · exact holder
    have hshape : st1 = ⟨false, false, st1.accounts, st1.account_to_health⟩ := by
      rcases hst1 with h | h <;> subst h <;> rfl
    have h2e := marginfiUpdate_applies st1.accounts st1.account_to_health s2 a
      acct2 holder1
    rw [hshape] at h2
    rw [h2e] at h2
    cases h2
    have h1e := marginfiUpdate_applies m hm s2 a acct2 holder
    rw [h1e] at h1'
    cases h1'
    have h2e' := marginfiUpdate_noop
      (mapInsert m a (CachedMarginfiAccount.from s2 a acct2))
      (mapInsert hm a (healthScoreOf (CachedMarginfiAccount.from s2 a acct2)))
      s1 a acct1 (CachedMarginfiAccount.from s2 a acct2)
      (mapGet_insert_self _ _ _)
      (by simpa [cachedMarginfiAccount_from_slot] using Nat.le_of_lt h12)
    rw [h2e'] at h2'
    cases h2'
    refine ⟨mapGet_insert_self _ _ _,
      by simp [cachedMarginfiAccount_from_slot, Nat.max_eq_right (Nat.le_of_lt h12)], ?_⟩
    intro x
    by_cases hx : x = a
    · subst hx
      simp [mapGet_insert_self]
    · rw [mapGet_insert_ne _ _ _ _ hx, mapGet_insert_ne _ _ _ _ hx]
      rcases hst1 with h | h
      · have : st1.accounts = mapInsert m a (CachedMarginfiAccount.from s1 a acct1) := by rw [h]
        rw [this, mapGet_insert_ne _ _ _ _ hx]
      · have : st1.accounts = m := by rw [h]
        rw [this]
  · intro m hm a s acct c hc hs
    exact marginfiUpdate_noop m hm s a acct c hc hs

/-- Witness values for C1: two banks and two margin accounts that differ
in content. -/
def bankW1 : Bank := ⟨11, 6, 3, ⟨.PythPushOracle, [5, 0]⟩⟩

/-- Second witness bank for C1. -/
def bankW2 : Bank := ⟨12, 6, 3, ⟨.PythPushOracle, [5, 0]⟩⟩

/-- First witness margin account for C1. -/
def acctW1 : MarginfiAccount := ⟨3, ⟨[]⟩, ⟨1000 * 2 ^ 48, 500 * 2 ^ 48⟩⟩

/-- Second witness margin account for C1. -/
def acctW2 : MarginfiAccount := ⟨3, ⟨[]⟩, ⟨2000 * 2 ^ 48, 500 * 2 ^ 48⟩⟩

set_option maxRecDepth 10000 in
/-- Witness for C1 at concrete inputs: slots 1 < 2 on the empty store for
the commutation parts, and a slot-5 upsert against a stored slot-5 entry
for the no-op parts. -/
theorem C1_upsert_monotone_commutative_witness :
    mapGet (mapInsert (mapInsert [] 7 (CachedBank.from 1 7 bankW1)) 7
      (CachedBank.from 2 7 bankW2)) 7 = some (CachedBank.from 2 7 bankW2) ∧
    BanksCache.update ⟨false, [(7, CachedBank.from 5 7 bankW1)]⟩ 5 7 bankW2 =
      .ok ⟨false, [(7, CachedBank.from 5 7 bankW1)]⟩ ∧
    mapGet (mapInsert (mapInsert [] 7 (CachedMarginfiAccount.from 1 7 acctW1))
      7 (CachedMarginfiAccount.from 2 7 acctW2)) 7 =
      some (CachedMarginfiAccount.from 2 7 acctW2) ∧
    MarginfiAccountsCache.update
      ⟨false, false, [(7, CachedMarginfiAccount.from 5 7 acctW1)], [(7, 0)]⟩
      5 7 acctW2 =
      .ok ⟨false, false, [(7, CachedMarginfiAccount.from 5 7 acctW1)], [(7, 0)]⟩ := by
  refine ⟨?_, ?_, ?_, ?_⟩
  · exact (C1_upsert_monotone_commutative.1 [] 7 1 2 bankW1 bankW2
      ⟨false, mapInsert [] 7 (CachedBank.from 1 7 bankW1)⟩
      ⟨false, mapInsert (mapInsert [] 7 (CachedBank.from 1 7 bankW1)) 7
        (CachedBank.from 2 7 bankW2)⟩
      ⟨false, mapInsert [] 7 (CachedBank.from 2 7 bankW2)⟩
      ⟨false, mapInsert [] 7 (CachedBank.from 2 7 bankW2)⟩
      (by decide) (by intro c h; simp [mapGet, List.lookup] at h)
      (by decide) (by decide) (by decide) (by decide)).1
  · exact C1_upsert_monotone_commutative.2.1 [(7, CachedBank.from 5 7 bankW1)]
      7 5 bankW2 (CachedBank.from 5 7 bankW1) (by decide) (by decide)
  · exact (C1_upsert_monotone_commutative.2.2.1 [] [] 7 1 2 acctW1 acctW2
      ⟨false, false, mapInsert [] 7 (CachedMarginfiAccount.from 1 7 acctW1),
        mapInsert [] 7 (healthScoreOf (CachedMarginfiAccount.from 1 7 acctW1))⟩
      ⟨false, false,
        mapInsert (mapInsert [] 7 (CachedMarginfiAccount.from 1 7 acctW1)) 7
          (CachedMarginfiAccount.from 2 7 acctW2),
        mapInsert (mapInsert [] 7
            (healthScoreOf (CachedMarginfiAccount.from 1 7 acctW1))) 7
          (healthScoreOf (CachedMarginfiAccount.from 2 7 acctW2))⟩
      ⟨false, false, mapInsert [] 7 (CachedMarginfiAccount.from 2 7 acctW2),
        mapInsert [] 7 (healthScoreOf (CachedMarginfiAccount.from 2 7 acctW2))⟩
      ⟨false, false, mapInsert [] 7 (CachedMarginfiAccount.from 2 7 acctW2),
        mapInsert [] 7 (healthScoreOf (CachedMarginfiAccount.from 2 7 acctW2))⟩
      (by decide) (by intro c h; simp [mapGet, List.lookup] at h)
      (by decide) (by decide) (by decide) (by decide)).1
  · exact C1_upsert_monotone_commutative.2.2.2
      [(7, CachedMarginfiAccount.from 5 7 acctW1)] [(7, 0)] 7 5 acctW2
      (CachedMarginfiAccount.from 5 7 acctW1) (by decide) (by decide)

/-- The health formula exactly as claim C2 words it: the real-valued
quotient (asset_value_maint − liability_value_maint) / asset_value_maint
truncated to an integer (toward zero), undefined when asset_value_maint is
zero. On I80F48 numerators `na`, `nl` that quotient is `(na − nl) / na`. -/
def healthSpecTruncated (na nl : Int) : Option Int :=
  if na = 0 then none else some (Int.tdiv (na - nl) na)

/-- C2 counterexample account: asset_value_maint 1000, liability_value_maint
1500 (as I80F48 numerators), so the exact health quotient is −0.5. -/
def acctC2 : MarginfiAccount := ⟨0, ⟨[]⟩, ⟨1000 * 2 ^ 48, 1500 * 2 ^ 48⟩⟩

set_option maxRecDepth 10000 in
/-- C2 counterexample: after a position upsert whose account has health
quotient −0.5, the health index stores −1 (the `to_num` conversion
discards the fractional bits, rounding toward negative infinity), while
the claim's "truncated to an integer" reading of the formula yields 0; so
the claim as stated is false at this input. -/
theorem C2_truncation_counterexample :
    (match MarginfiAccountsCache.update ⟨false, false, [], []⟩ 1 7 acctC2 with
     | .ok st => mapGet st.account_to_health 7
     | _ => none) = some (-1) ∧
    healthSpecTruncated (1000 * 2 ^ 48) (1500 * 2 ^ 48) = some 0 ∧
    ((-1 : Int) = 0 → False) := by
  refine ⟨by decide, by decide, by decide⟩

/-- C2 amended: after every position-cache update that replaces the stored
entry, the health index entry for that address equals the score computed
from that same written account — the fixed-point quotient
(asset_value_maint − liability_value_maint) / asset_value_maint with its
fractional bits discarded, i.e. rounded toward negative infinity (−0.5
yields −1) — or the sentinel when the asset value is zero, with no panic
or division error, and never a score derived from a previous write. -/
theorem C2_health_mirrored_floor :
    ∀ (m : List (Addr × CachedMarginfiAccount)) (hm : List (Addr × Int))
      (slot : Nat) (address : Addr) (account : MarginfiAccount)
      (st' : MarginfiAccountsCacheState),
      (∀ c, mapGet m address = some c → c.slot < slot) →
      MarginfiAccountsCache.update ⟨false, false, m, hm⟩ slot address account
        = .ok st' →
      mapGet st'.account_to_health address =
        some (healthScoreOf (CachedMarginfiAccount.from slot address account)) ∧
      mapGet st'.accounts address =
        some (CachedMarginfiAccount.from slot address account) ∧
      (account.health_cache.asset_value_maint = 0 →
        (CachedMarginfiAccount.from slot address account).health = none ∧
        mapGet st'.account_to_health address = some INVALID_HEALTH) := by
  intro m hm slot address account st' holder hupd
  rw [marginfiUpdate_applies m hm slot address account holder] at hupd
  cases hupd
  have hzero : account.health_cache.asset_value_maint = 0 →
      (CachedMarginfiAccount.from slot address account).health = none := by
    intro h0
    simp [CachedMarginfiAccount.health, i80f48CheckedDiv,
      CachedMarginfiAccount.asset_value_maint, CachedMarginfiAccount.from, h0]
  refine ⟨mapGet_insert_self _ _ _, mapGet_insert_self _ _ _, ?_⟩
  intro h0
  refine ⟨hzero h0, ?_⟩
  rw [show healthScoreOf (CachedMarginfiAccount.from slot address account) =
    INVALID_HEALTH from by simp [healthScoreOf, hzero h0]]
  exact mapGet_insert_self _ _ _

/-- C2-amended witness account: zero asset value, so the health derivation
is undefined and the sentinel must be stored (no panic or division
error). -/
def acctC2W : MarginfiAccount := ⟨0, ⟨[]⟩, ⟨0, 2 ^ 48⟩⟩

set_option maxRecDepth 10000 in
/-- Witness for the amended C2 at a concrete zero-asset account: the update
succeeds and the health index holds the sentinel computed from that same
write. -/
theorem C2_health_mirrored_floor_witness :
    mapGet (⟨false, false, mapInsert [] 7 (CachedMarginfiAccount.from 1 7 acctC2W),
        mapInsert [] 7 (healthScoreOf (CachedMarginfiAccount.from 1 7 acctC2W))⟩ :
      MarginfiAccountsCacheState).account_to_health 7 =
      some (healthScoreOf (CachedMarginfiAccount.from 1 7 acctC2W)) ∧
    (CachedMarginfiAccount.from 1 7 acctC2W).health = none ∧
    mapGet (⟨false, false, mapInsert [] 7 (CachedMarginfiAccount.from 1 7 acctC2W),
        mapInsert [] 7 (healthScoreOf (CachedMarginfiAccount.from 1 7 acctC2W))⟩ :
      MarginfiAccountsCacheState).account_to_health 7 = some INVALID_HEALTH := by
  have h := C2_health_mirrored_floor [] [] 1 7 acctC2W
    ⟨false, false, mapInsert [] 7 (CachedMarginfiAccount.from 1 7 acctC2W),
      mapInsert [] 7 (healthScoreOf (CachedMarginfiAccount.from 1 7 acctC2W))⟩
    (by intro c hc; simp [mapGet, List.lookup] at hc) (by decide)
  exact ⟨h.1, (h.2.2 (by decide)).1, (h.2.2 (by decide)).2⟩

/-- Dummy bank used to exercise the poisoned-lock paths for C4. -/
def bankC4 : Bank := ⟨11, 6, 3, ⟨.PythPushOracle, [5]⟩⟩

/-- Dummy margin account used to exercise the poisoned-lock paths for C4. -/
def acctC4 : MarginfiAccount := ⟨3, ⟨[]⟩, ⟨2 ^ 48, 0⟩⟩

/-- Dummy fetched account used to exercise the poisoned-lock paths for C4. -/
def accountC4 : Account := ⟨[1, 1, 1, 1, 1, 1, 1, 1], 0⟩

/-- Dummy clock for C4. -/
def clockC4 : Clock := ⟨1, 0, 0, 0, 0⟩

/-- A cache aggregate whose clock lock is poisoned, for C4. -/
def cacheC4 : CacheState :=
  ⟨true, clockC4, ⟨false, false, [], []⟩, ⟨false, []⟩, ⟨false, []⟩,
    ⟨false, []⟩, ⟨false, []⟩⟩

set_option maxRecDepth 10000 in
/-- C4: with a poisoned lock, every embedded cache operation across the six
caches surfaces the lock error to the caller — except
`OraclesCache::get_oracle_addresses`, which `unwrap()`s the mapped error
and panics, contradicting the claim that no cache operation panics when
its lock is poisoned. -/
theorem C4_get_oracle_addresses_panics_on_poison :
    BanksCache.update ⟨true, []⟩ 1 7 bankC4 = .err .lockPoisoned ∧
    BanksCache.get_mints ⟨true, []⟩ = .err .lockPoisoned ∧
    BanksCache.get_oracles_data ⟨true, []⟩ = .err .lockPoisoned ∧
    BanksCache.get ⟨true, []⟩ 7 = .err .lockPoisoned ∧
    MarginfiAccountsCache.update ⟨true, false, [], []⟩ 1 7 acctC4 =
      .err .lockPoisoned ∧
    MarginfiAccountsCache.update ⟨false, true, [], []⟩ 1 7 acctC4 =
      .err .lockPoisoned ∧
    MarginfiAccountsCache.get_account ⟨true, false, [], []⟩ 7 =
      .err .lockPoisoned ∧
    MarginfiAccountsCache.get_accounts_with_health ⟨false, true, [], []⟩ =
      .err .lockPoisoned ∧
    MintsCache.update ⟨true, []⟩ 7 accountC4 = .err .lockPoisoned ∧
    MintsCache.get ⟨true, []⟩ 7 = .err .lockPoisoned ∧
    OraclesCache.insert 3208 ⟨true, []⟩ 1 7 .PythPushOracle accountC4 =
      .err .lockPoisoned ∧
    OraclesCache.update 3208 ⟨true, []⟩ 1 7 accountC4 = .err .lockPoisoned ∧
    OraclesCache.get ⟨true, []⟩ 7 = .err .lockPoisoned ∧
    LutsCache.populate ⟨true, []⟩ [] = .err .lockPoisoned ∧
    LutsCache.get_all ⟨true, []⟩ = .err .lockPoisoned ∧
    Cache.update_clock cacheC4 clockC4 = .err .lockPoisoned ∧
    Cache.get_clock cacheC4 = .err .lockPoisoned ∧
    OraclesCache.get_oracle_addresses ⟨true, []⟩ = .panicked := by
  decide

/-- C10: if an oracle update arrives with a slot newer than the cached
adapter's slot but the incoming account bytes fail to decode, the cache
state is returned unchanged (the previously cached adapter, price and
slot included, is retained) and the call succeeds; and an update for an
address the oracle cache does not know is a successful no-op that inserts
nothing. -/
theorem C10_update_decode_failure_keeps_adapter :
    (∀ (m : List (Addr × CachedOracle)) (pod_size slot : Nat) (a : Addr)
        (acct : Account) (co : CachedOracle) (ad : CachedPriceAdapter)
        (e : Err),
      mapGet m a = some co → co.adapter = some ad → ad.slot < slot →
      CachedPriceAdapter.from pod_size slot co.oracle_type a acct = .err e →
      OraclesCache.update pod_size ⟨false, m⟩ slot a acct = .ok ⟨false, m⟩) ∧
    (∀ (m : List (Addr × CachedOracle)) (pod_size slot : Nat) (a : Addr)
        (acct : Account),
      mapGet m a = none →
      OraclesCache.update pod_size ⟨false, m⟩ slot a acct = .ok ⟨false, m⟩) := by
  constructor
  · intro m pod_size slot a acct co ad e hco had hslot hfrom
    unfold OraclesCache.update
    simp [hco, had, hslot, hfrom]
  · intro m pod_size slot a acct hma
    unfold OraclesCache.update
    simp [hma]

/-- Cached oracle used by the C10 witness: a Pyth oracle whose cached
adapter was observed at slot 3. -/
def oracleC10 : CachedOracle := ⟨9, .PythPushOracle, some ⟨3, .PythPushOracle []⟩⟩

/-- Witness for C10: a slot-5 update whose account bytes have a wrong
discriminator leaves the slot-3 adapter in place and succeeds, and an
update for an unknown address is a successful no-op. -/
theorem C10_update_decode_failure_keeps_adapter_witness :
    OraclesCache.update 3208 ⟨false, [(9, oracleC10)]⟩ 5 9
      ⟨[1, 1, 1, 1, 1, 1, 1, 1], 0⟩ = .ok ⟨false, [(9, oracleC10)]⟩ ∧
    OraclesCache.update 3208 ⟨false, []⟩ 5 9 ⟨[1, 1, 1, 1, 1, 1, 1, 1], 0⟩ =
      .ok ⟨false, []⟩ :=
  ⟨C10_update_decode_failure_keeps_adapter.1 [(9, oracleC10)] 3208 5 9
      ⟨[1, 1, 1, 1, 1, 1, 1, 1], 0⟩ oracleC10 ⟨3, .PythPushOracle []⟩
      .invalidDiscriminator (by decide) (by decide) (by decide) (by decide),
   C10_update_decode_failure_keeps_adapter.2 [] 3208 5 9
      ⟨[1, 1, 1, 1, 1, 1, 1, 1], 0⟩ (by decide)⟩

theorem banksUpdate_slot_inv (st : BanksCacheState) (slot : Nat) (a : Addr)
    (b : Bank) (st' : BanksCacheState)
    (hupd : BanksCache.update st slot a b = .ok st')
    (hinv : ∀ x c, mapGet st.banks x = some c → c.slot = slot) :
    ∀ x c, mapGet st'.banks x = some c → c.slot = slot := by
  unfold BanksCache.update at hupd
  cases hp : st.poisoned with
  | true => simp [hp] at hupd
  | false =>
    simp only [hp, Bool.false_eq_true, if_false] at hupd
    split at hupd
    · cases hupd
      intro x c hx
      by_cases hxa : x = a
      · subst hxa
        rw [mapGet_insert_self] at hx
        cases hx
        exact cachedBank_from_slot slot x b
      · rw [mapGet_insert_ne _ _ _ _ hxa] at hx
        exact hinv x c hx
    · cases hupd
      exact hinv

theorem marginfiUpdate_slot_inv (st : MarginfiAccountsCacheState) (slot : Nat)
    (a : Addr) (acct : MarginfiAccount) (st' : MarginfiAccountsCacheState)
    (hupd : MarginfiAccountsCache.update st slot a acct = .ok st')
    (hinv : ∀ x c, mapGet st.accounts x = some c → c.slot = slot) :
    ∀ x c, mapGet st'.accounts x = some c → c.slot = slot := by
  unfold MarginfiAccountsCache.update at hupd
  cases hp : st.accounts_poisoned with
  | true => simp [hp] at hupd
  | false =>
    cases hq : st.health_poisoned with
    | true => simp [hp, hq] at hupd
    | false =>
      simp only [hp, hq, Bool.false_eq_true, if_false] at hupd
      split at hupd
      · cases hupd
        intro x c hx
        by_cases hxa : x = a
        · subst hxa
          rw [mapGet_insert_self] at hx
          cases hx
          exact cachedMarginfiAccount_from_slot slot x acct
        · rw [mapGet_insert_ne _ _ _ _ hxa] at hx
          exact hinv x c hx
      · cases hupd
        exact hinv

theorem load_accounts_loop_slot_inv
    (desA : List Nat → Option MarginfiAccount) (desB : List Nat → Option Bank)
    (slot : Nat) :
    ∀ (accounts : List (Addr × Account)) (cache st' : CacheState),
      CacheLoader.load_accounts_loop desA desB slot accounts cache = .ok st' →
      (∀ x c, mapGet cache.banks.banks x = some c → c.slot = slot) →
      (∀ x c, mapGet cache.marginfi_accounts.accounts x = some c →
        c.slot = slot) →
      (∀ x c, mapGet st'.banks.banks x = some c → c.slot = slot) ∧
      (∀ x c, mapGet st'.marginfi_accounts.accounts x = some c →
        c.slot = slot) := by
  intro accounts
  induction accounts with
  | nil =>
    intro cache st' hloop hb hma
    cases hloop
    exact ⟨hb, hma⟩
  | cons pair rest ih =>
    intro cache st' hloop hb hma
    obtain ⟨a, acct⟩ := pair
    simp only [CacheLoader.load_accounts_loop] at hloop
    cases hcls : get_marginfi_message_type acct.data with
    | none =>
      simp only [hcls] at hloop
      exact ih cache st' hloop hb hma
    | some mt =>
      cases mt with
      | Clock =>
        simp only [hcls] at hloop
        exact ih cache st' hloop hb hma
      | Oracle =>
        simp only [hcls] at hloop
        exact ih cache st' hloop hb hma
      | MarginfiAccount =>
        simp only [hcls] at hloop
        cases hdes : desA acct.data with
        | none => simp only [hdes] at hloop; cases hloop
        | some ma =>
          simp only [hdes] at hloop
          cases hupd : MarginfiAccountsCache.update cache.marginfi_accounts
              slot a ma with
          | ok stM =>
            simp only [hupd] at hloop
            exact ih { cache with marginfi_accounts := stM } st' hloop hb
              (marginfiUpdate_slot_inv cache.marginfi_accounts slot a ma stM
                hupd hma)
          | err e => simp only [hupd] at hloop; cases hloop
          | panicked => simp only [hupd] at hloop; cases hloop
      | Bank =>
        simp only [hcls] at hloop
        cases hdes : desB acct.data with
        | none => simp only [hdes] at hloop; cases hloop
        | some bk =>
          simp only [hdes] at hloop
          cases hupd : BanksCache.update cache.banks slot a bk with
          | ok stB =>
            simp only [hupd] at hloop
            exact ih { cache with banks := stB } st' hloop
              (banksUpdate_slot_inv cache.banks slot a bk stB hupd hb) hma
          | err e => simp only [hupd] at hloop; cases hloop
          | panicked => simp only [hupd] at hloop; cases hloop

/-- C7: starting from empty pool and position caches, every record that
`load_accounts` leaves in those caches carries the single clock slot read
from the cached clock before the batch was processed — one point-in-time
stamp for the whole scan, not per-account slots. -/
theorem C7_bootstrap_single_slot_stamp :
    ∀ (desA : List Nat → Option MarginfiAccount)
      (desB : List Nat → Option Bank) (accounts : List (Addr × Account))
      (clock : Clock) (mintsSt : MintsCacheState)
      (oraclesSt : OraclesCacheState) (lutsSt : LutsCacheState)
      (st' : CacheState),
      CacheLoader.load_accounts desA desB (some accounts)
        ⟨false, clock, ⟨false, false, [], []⟩, ⟨false, []⟩, mintsSt, oraclesSt,
          lutsSt⟩ = .ok st' →
      (∀ a c, mapGet st'.banks.banks a = some c → c.slot = clock.slot) ∧
      (∀ a c, mapGet st'.marginfi_accounts.accounts a = some c →
        c.slot = clock.slot) := by
  intro desA desB accounts clock mintsSt oraclesSt lutsSt st' hload
  unfold CacheLoader.load_accounts Cache.get_clock at hload
  simp only [Bool.false_eq_true, if_false] at hload
  exact load_accounts_loop_slot_inv desA desB clock.slot accounts _ st' hload
    (by intro x c hc; simp [mapGet, List.lookup] at hc)
    (by intro x c hc; simp [mapGet, List.lookup] at hc)

/-- Bank decoded by the C7 witness scan. -/
def bankC7 : Bank := ⟨11, 6, 3, ⟨.PythPushOracle, [5]⟩⟩

/-- The cache state after the C7 witness scan: one bank, stamped with
clock slot 42. -/
def stC7 : CacheState :=
  ⟨false, ⟨42, 0, 0, 0, 0⟩, ⟨false, false, [], []⟩,
    ⟨false, mapInsert [] 5 (CachedBank.from 42 5 bankC7)⟩, ⟨false, []⟩,
    ⟨false, []⟩, ⟨false, []⟩⟩

/-- Witness for C7: a scan returning one bank-classified account, loaded
against a cached clock at slot 42, leaves only slot-42 records. -/
theorem C7_bootstrap_single_slot_stamp_witness :
    (∀ a c, mapGet stC7.banks.banks a = some c → c.slot = 42) ∧
    (∀ a c, mapGet stC7.marginfi_accounts.accounts a = some c →
      c.slot = 42) :=
  C7_bootstrap_single_slot_stamp (fun _ => none) (fun _ => some bankC7)
    [(5, ⟨MARGINFI_BANK_DISC ++ [0], 0⟩)] ⟨42, 0, 0, 0, 0⟩ ⟨false, []⟩
    ⟨false, []⟩ ⟨false, []⟩ stC7 (by decide)

theorem oraclesInsert_not_panicked (pod : Nat) (st : OraclesCacheState)
    (slot : Nat) (a : Addr) (ot : OracleSetup) (acct : Account)
    (h : CachedPriceAdapter.from pod slot ot a acct ≠ .panicked) :
    OraclesCache.insert pod st slot a ot acct ≠ .panicked := by
  unfold OraclesCache.insert
  cases hf : CachedPriceAdapter.from pod slot ot a acct with
  | panicked => exact absurd hf h
  | ok ad => cases hp : st.poisoned <;> simp [hp]
  | err e => cases hp : st.poisoned <;> simp [hp]

theorem load_oracles_addrs_isOk (pod slot : Nat)
    (fetched : Addr → Option Account) (ot : OracleSetup) :
    ∀ (addrs : List Addr) (st : OraclesCacheState),
      (∀ a ∈ addrs,
        (match fetched a with
         | some acct => CachedPriceAdapter.from pod slot ot a acct ≠ .panicked
         | none => True)) →
      ∃ st', CacheLoader.load_oracles_addrs pod slot fetched ot addrs st =
        .ok st' := by
  intro addrs
  induction addrs with
  | nil => intro st _; exact ⟨st, rfl⟩
  | cons a rest ih =>
    intro st h
    have ha := h a (List.mem_cons_self a rest)
    have hrest : ∀ x ∈ rest,
        (match fetched x with
         | some acct => CachedPriceAdapter.from pod slot ot x acct ≠ .panicked
         | none => True) :=
      fun x hx => h x (List.mem_cons_of_mem a hx)
    simp only [CacheLoader.load_oracles_addrs]
    cases hf : fetched a with
    | none =>
      simp only [hf]
      exact ih st hrest
    | some acct =>
      rw [hf] at ha
      cases hins : OraclesCache.insert pod st slot a ot acct with
      | ok st1 =>
        simp only [hf, hins]
        exact ih st1 hrest
      | err e =>
        simp only [hf, hins]
        exact ih st hrest
      | panicked =>
        exact absurd hins (oraclesInsert_not_panicked pod st slot a ot acct ha)

theorem load_oracles_loop_isOk (pod slot : Nat)
    (fetched : Addr → Option Account) :
    ∀ (ods : List CachedBankOracle) (st : OraclesCacheState),
      (∀ od ∈ ods, ∀ a ∈ od.oracle_addresses,
        (match fetched a with
         | some acct =>
            CachedPriceAdapter.from pod slot od.oracle_type a acct ≠ .panicked
         | none => True)) →
      ∃ st', CacheLoader.load_oracles_loop pod slot fetched ods st =
        .ok st' := by
  intro ods
  induction ods with
  | nil => intro st _; exact ⟨st, rfl⟩
  | cons od rest ih =>
    intro st h
    obtain ⟨st1, h1⟩ := load_oracles_addrs_isOk pod slot fetched od.oracle_type
      od.oracle_addresses st (h od (List.mem_cons_self od rest))
    simp only [CacheLoader.load_oracles_loop, h1]
    exact ih st1 (fun x hx => h x (List.mem_cons_of_mem od hx))

/-- C8: a decode failure never blocks the oracle's identity: when
`CachedPriceAdapter::from` returns an error, `OraclesCache::insert` still
stores an identity-only entry (no price adapter) at the address and
returns success; and as long as no per-oracle processing panics, the
whole `load_oracles` phase returns success no matter how many per-oracle
fetches are missing or decodes fail. -/
theorem C8_decode_failure_tolerated :
    (∀ (pod : Nat) (m : List (Addr × CachedOracle)) (slot : Nat) (a : Addr)
        (ot : OracleSetup) (acct : Account) (e : Err),
      CachedPriceAdapter.from pod slot ot a acct = .err e →
      OraclesCache.insert pod ⟨false, m⟩ slot a ot acct =
        .ok ⟨false, mapInsert m a (CachedOracle.mk a ot none)⟩ ∧
      mapGet (mapInsert m a (CachedOracle.mk a ot none)) a =
        some (CachedOracle.mk a ot none)) ∧
    (∀ (pod : Nat) (clock : Clock) (banksM : List (Addr × CachedBank))
        (maSt : MarginfiAccountsCacheState) (mintsSt : MintsCacheState)
        (lutsSt : LutsCacheState) (oraclesM : List (Addr × CachedOracle))
        (fetched : Addr → Option Account),
      (∀ od ∈ banksM.map (fun p => p.2.oracle), ∀ a ∈ od.oracle_addresses,
        (match fetched a with
         | some acct =>
            CachedPriceAdapter.from pod clock.slot od.oracle_type a acct ≠
              .panicked
         | none => True)) →
      (CacheLoader.load_oracles pod (some fetched)
        ⟨false, clock, maSt, ⟨false, banksM⟩, mintsSt, ⟨false, oraclesM⟩,
          lutsSt⟩).isOk = true) := by
  constructor
  · intro pod m slot a ot acct e hfrom
    constructor
    · unfold OraclesCache.insert
      simp [hfrom]
    · exact mapGet_insert_self _ _ _
  · intro pod clock banksM maSt mintsSt lutsSt oraclesM fetched h
    obtain ⟨st', hst'⟩ := load_oracles_loop_isOk pod clock.slot fetched
      (banksM.map (fun p => p.2.oracle)) ⟨false, oraclesM⟩ h
    unfold CacheLoader.load_oracles Cache.get_clock BanksCache.get_oracles_data
    simp only [Bool.false_eq_true, if_false]
    rw [hst']
    rfl

/-- The bank entry whose oracle the C8 witness loads. -/
def cachedBankC8 : CachedBank := ⟨9, 4, 6, 11, 3, ⟨.PythPushOracle, [5]⟩⟩

/-- The malformed oracle account fetched by the C8 witness: 8 bytes that
match no discriminator. -/
def acctC8 : Account := ⟨[1, 1, 1, 1, 1, 1, 1, 1], 0⟩

/-- Witness for C8: inserting the malformed oracle account stores an
identity-only entry and succeeds, and a `load_oracles` phase over a bank
referencing that oracle still returns success. -/
theorem C8_decode_failure_tolerated_witness :
    OraclesCache.insert 3208 ⟨false, []⟩ 9 5 .PythPushOracle acctC8 =
      .ok ⟨false, mapInsert [] 5 (CachedOracle.mk 5 .PythPushOracle none)⟩ ∧
    mapGet (mapInsert [] 5 (CachedOracle.mk 5 .PythPushOracle none)) 5 =
      some (CachedOracle.mk 5 .PythPushOracle none) ∧
    (CacheLoader.load_oracles 3208
      (some (fun a => if a = 5 then some acctC8 else none))
      ⟨false, ⟨9, 0, 0, 0, 0⟩, ⟨false, false, [], []⟩,
        ⟨false, [(4, cachedBankC8)]⟩, ⟨false, []⟩, ⟨false, []⟩,
        ⟨false, []⟩⟩).isOk = true := by
  have h1 := C8_decode_failure_tolerated.1 3208 [] 9 5 .PythPushOracle acctC8
    .invalidDiscriminator (by decide)
  have h2 := C8_decode_failure_tolerated.2 3208 ⟨9, 0, 0, 0, 0⟩
    [(4, cachedBankC8)] ⟨false, false, [], []⟩ ⟨false, []⟩ ⟨false, []⟩ []
    (fun a => if a = 5 then some acctC8 else none)
    (by
      intro od hod a ha
      simp only [List.map, List.mem_singleton] at hod
      subst hod
      simp only [cachedBankC8, List.mem_singleton] at ha
      subst ha
      show CachedPriceAdapter.from 3208 9 .PythPushOracle 5 acctC8 ≠ .panicked
      decide)
  exact ⟨h1.1, h1.2, h2⟩

/-- C9: the ingestion loop returns (with success, the only value `run`
ever returns) only when an iteration observes the stop flag set; and a
trace in which the flag is never observed set and every receive fails
(closed or broken queue) leaves the loop still running with its state
untouched — receive errors alone never terminate it. -/
theorem C9_stop_flag_alone_ends_loop :
    (∀ (pod : Nat) (dc : List Nat → Option Clock)
        (da : List Nat → Option MarginfiAccount)
        (db : List Nat → Option Bank) (steps : List (Bool × RecvResult))
        (cache res : CacheState),
      GeyserProcessor.run pod dc da db steps cache = .stoppedOk res →
      ∃ s ∈ steps, s.1 = true) ∧
    (∀ (pod : Nat) (dc : List Nat → Option Clock)
        (da : List Nat → Option MarginfiAccount)
        (db : List Nat → Option Bank) (steps : List (Bool × RecvResult))
        (cache : CacheState),
      (∀ s ∈ steps, s.1 = false ∧ s.2 = .recvFailed) →
      GeyserProcessor.run pod dc da db steps cache = .running cache) := by
  constructor
  · intro pod dc da db steps
    induction steps with
    | nil =>
      intro cache res h
      cases h
    | cons s rest ih =>
      intro cache res h
      obtain ⟨flag, r⟩ := s
      cases flag with
      | true => exact ⟨(true, r), List.mem_cons_self _ _, rfl⟩
      | false =>
        cases r with
        | recvFailed =>
          simp only [GeyserProcessor.run, Bool.false_eq_true, if_false] at h
          obtain ⟨s', hs', hflag⟩ := ih cache res h
          exact ⟨s', List.mem_cons_of_mem _ hs', hflag⟩
        | msg m =>
          simp only [GeyserProcessor.run, Bool.false_eq_true, if_false] at h
          cases hpm : GeyserProcessor.process_message pod dc da db cache m with
          | ok cache' =>
            rw [hpm] at h
            obtain ⟨s', hs', hflag⟩ := ih cache' res h
            exact ⟨s', List.mem_cons_of_mem _ hs', hflag⟩
          | err e =>
            rw [hpm] at h
            obtain ⟨s', hs', hflag⟩ := ih cache res h
            exact ⟨s', List.mem_cons_of_mem _ hs', hflag⟩
          | panicked =>
            rw [hpm] at h
            cases h
  · intro pod dc da db steps
    induction steps with
    | nil => intro cache _; rfl
    | cons s rest ih =>
      intro cache h
      obtain ⟨hflag, hr⟩ := h s (List.mem_cons_self s rest)
      obtain ⟨flag, r⟩ := s
      cases hflag
      cases hr
      simp only [GeyserProcessor.run, Bool.false_eq_true, if_false]
      exact ih cache (fun x hx => h x (List.mem_cons_of_mem _ hx))

/-- Cache state for the C9 witness. -/
def cacheC9 : CacheState :=
  ⟨false, ⟨1, 0, 0, 0, 0⟩, ⟨false, false, [], []⟩, ⟨false, []⟩, ⟨false, []⟩,
    ⟨false, []⟩, ⟨false, []⟩⟩

/-- Witness for C9: a trace whose second iteration observes the stop flag
terminates (so some iteration saw the flag), and a two-failure trace with
the flag never set leaves the loop running. -/
theorem C9_stop_flag_alone_ends_loop_witness :
    (∃ s ∈ [((false : Bool), RecvResult.recvFailed),
      ((true : Bool), RecvResult.recvFailed)], s.1 = true) ∧
    GeyserProcessor.run 3208 (fun _ => none) (fun _ => none) (fun _ => none)
      [(false, .recvFailed), (false, .recvFailed)] cacheC9 =
      .running cacheC9 :=
  ⟨C9_stop_flag_alone_ends_loop.1 3208 (fun _ => none) (fun _ => none)
      (fun _ => none) [(false, .recvFailed), (true, .recvFailed)] cacheC9
      cacheC9 (by decide),
   C9_stop_flag_alone_ends_loop.2 3208 (fun _ => none) (fun _ => none)
      (fun _ => none) [(false, .recvFailed), (false, .recvFailed)] cacheC9
      (by decide)⟩

end Mary
